import Mathlib

set_option maxHeartbeats 1000000
set_option maxRecDepth 100000

namespace HwrSpec

attribute [local semireducible] Rat.add Rat.mul Rat.sub Rat.inv

/-! Verification development for the rmapi-hwr decoder and renderer.

The Go source stores sample data as IEEE-754 single-precision floats.  The
embedding decodes float32 bit patterns exactly (NaN / infinity / finite
rational); float32 *arithmetic* in the pen model and renderer is modelled as
exact rational arithmetic, decimal literals as exact rationals, and the
transcendental library calls (`math.Pow`, `math.Sqrt`) as an abstract
operation record, so every theorem below holds for all interpretations of
those operations. -/

/-- An IEEE-754 single-precision value: a float32 bit pattern decodes to a
NaN, a signed infinity, or a finite rational value. -/
inductive F32 where
  | nan : F32
  | inf (neg : Bool) : F32
  | fin (q : ℚ) : F32
  deriving DecidableEq

/-- Byte access into the raw buffer; in-range in all uses reached by the
decoder's bounds checks. -/
def byteAt (data : List Nat) (i : Nat) : Nat := data.getD i 0

/-- `binary.LittleEndian.Uint32(data[pos:pos+4])`. -/
def le32 (data : List Nat) (pos : Nat) : Nat :=
  byteAt data pos + 256 * byteAt data (pos + 1) + 65536 * byteAt data (pos + 2) +
    16777216 * byteAt data (pos + 3)

/-- `math.Float32frombits`: decode a 32-bit pattern into sign, exponent and
mantissa per IEEE-754 binary32. -/
def f32FromBits (bits : Nat) : F32 :=
  let sign : Bool := bits / 2 ^ 31 % 2 = 1
  let exp : Nat := bits / 2 ^ 23 % 256
  let frac : Nat := bits % 2 ^ 23
  if exp = 255 then
    if frac = 0 then .inf sign else .nan
  else
    let mag : ℚ :=
      if exp = 0 then (frac : ℚ) / 2 ^ 149
      else (((2 ^ 23 + frac) * 2 ^ exp : Nat) : ℚ) / 2 ^ 150
    .fin (if sign then -mag else mag)

/-- `math.IsNaN`. -/
def F32.isNaNB : F32 → Bool
  | .nan => true
  | _ => false

/-- `math.IsInf(·, 0)`. -/
def F32.isInfB : F32 → Bool
  | .inf _ => true
  | _ => false

/-- IEEE comparison `f < c` against a finite constant `c`: false whenever
`f` is NaN. -/
def F32.ltB : F32 → ℚ → Bool
  | .nan, _ => false
  | .inf neg, _ => neg
  | .fin q, c => decide (q < c)

/-- IEEE comparison `f > c` against a finite constant `c`: false whenever
`f` is NaN. -/
def F32.gtB : F32 → ℚ → Bool
  | .nan, _ => false
  | .inf neg, _ => !neg
  | .fin q, c => decide (c < q)

/-- A decoded sample point (`rm.Point`): six packed little-endian float32
fields, in file order. -/
structure Point where
  x : F32
  y : F32
  speed : F32
  direction : F32
  width : F32
  pressure : F32
  deriving DecidableEq

/-- A decoded stroke (`rm.Line`).  The brush type is kept as the raw u32
read from the file, as in `rm.BrushType(brushType)`. -/
structure Line where
  brushType : Nat
  brushColor : Nat
  padding : Nat
  brushSize : F32
  unknown : F32
  points : List Point
  deriving DecidableEq

/-- `rm.Layer`. -/
structure Layer where
  lines : List Line
  deriving DecidableEq

/-- `rm.Rm`, the stroke document produced by the decoder. -/
structure Rm where
  layers : List Layer
  deriving DecidableEq

/-- Read one 24-byte point record (part_001 lines 179-190). -/
def readPoint (data : List Nat) (pos : Nat) : Point :=
  { x := f32FromBits (le32 data pos)
    y := f32FromBits (le32 data (pos + 4))
    speed := f32FromBits (le32 data (pos + 8))
    direction := f32FromBits (le32 data (pos + 12))
    width := f32FromBits (le32 data (pos + 16))
    pressure := f32FromBits (le32 data (pos + 20)) }

/-- First per-point check (part_001 lines 192-199): every one of the six
fields must be neither NaN nor infinite. -/
def pointFinite (p : Point) : Bool :=
  !(p.x.isNaNB || p.x.isInfB || p.y.isNaNB || p.y.isInfB ||
    p.speed.isNaNB || p.speed.isInfB || p.direction.isNaNB || p.direction.isInfB ||
    p.width.isNaNB || p.width.isInfB || p.pressure.isNaNB || p.pressure.isInfB)

/-- Second per-point check (part_001 line 201): x and y within the plausible
document range. -/
def pointInRange (p : Point) : Bool :=
  !(p.x.ltB (-1000) || p.x.gtB 20000 || p.y.ltB (-1000) || p.y.gtB 20000)

/-- A point is retained iff both per-point checks pass. -/
def pointKeep (p : Point) : Bool := pointFinite p && pointInRange p

/-- The point-reading loop (part_001 lines 173-216): reads up to `n` 24-byte
records, drops invalid points individually, and returns the retained points
together with the final cursor position. -/
def readPoints (data : List Nat) (pos pe : Nat) : Nat → List Point × Nat
  | 0 => ([], pos)
  | n + 1 =>
    if pos + 24 > pe then ([], pos)
    else
      let p := readPoint data pos
      let rest := readPoints data (pos + 24) pe n
      if pointKeep p then (p :: rest.1, rest.2) else rest

/-- Result of attempting to read a 24-byte stroke header at a candidate
position: a `break` out of the scan loop (with the cursor where the source
leaves it), a rejection (resynchronize at candidate start + 1), or an
accepted header. -/
inductive HeaderResult where
  | stop (next : Nat)
  | reject
  | accept (brushType brushColor padding : Nat) (brushSize unknown : F32) (numPoints : Nat)
  deriving DecidableEq

/-- The candidate-header reader (part_001 lines 102-162): reads brush type,
color, padding, brush size, unknown field and point count, with the source's
bounds checks and plausibility checks in source order. -/
def readHeader (data : List Nat) (pe pos : Nat) : HeaderResult :=
  if pos + 4 > pe then .stop pos
  else
    let brushType := le32 data pos
    if brushType > 50 then .reject
    else if pos + 8 > pe then .stop (pos + 4)
    else
      let brushColor := le32 data (pos + 4)
      if pos + 12 > pe then .stop (pos + 8)
      else
        let padding := le32 data (pos + 8)
        if pos + 16 > pe then .stop (pos + 12)
        else
          let brushSize := f32FromBits (le32 data (pos + 12))
          if brushSize.ltB 0 || brushSize.gtB 100 then .reject
          else if pos + 20 > pe then .stop (pos + 16)
          else
            let unknown := f32FromBits (le32 data (pos + 16))
            if pos + 24 > pe then .stop (pos + 20)
            else
              let numPoints := le32 data (pos + 20)
              if numPoints = 0 || numPoints > 50000 then .reject
              else if pos + 24 + numPoints * 24 > pe then .reject
              else .accept brushType brushColor padding brushSize unknown numPoints

/-- Outcome of one iteration of the stroke scan loop. -/
inductive ScanOutcome where
  | stop (next : Nat)
  | reject
  | accept (l : Line) (next : Nat)
  deriving DecidableEq

/-- One iteration of the stroke scan loop body (part_001 lines 103-224):
read a candidate header; on acceptance read its points, and treat a
candidate with zero surviving points as a false positive (rejection). -/
def scanStep (data : List Nat) (pe pos : Nat) : ScanOutcome :=
  match readHeader data pe pos with
  | .stop n => .stop n
  | .reject => .reject
  | .accept bt bc pad bs unk np =>
    let res := readPoints data (pos + 24) pe np
    if res.1.length > 0 then
      .accept { brushType := bt, brushColor := bc, padding := pad, brushSize := bs,
                unknown := unk, points := res.1 } res.2
    else .reject

theorem readPoints_pos_le (data : List Nat) (pe : Nat) :
    ∀ (n pos : Nat), pos ≤ (readPoints data pos pe n).2 := by
  intro n
  induction n with
  | zero => intro pos; simp [readPoints]
  | succ n ih =>
    intro pos
    simp only [readPoints]
    split
    · exact Nat.le_refl pos
    · have h := ih (pos + 24)
      split
      · exact Nat.le_trans (by omega) h
      · exact Nat.le_trans (by omega) h

theorem scanStep_accept_lt (data : List Nat) (pe pos : Nat) (l : Line) (next : Nat)
    (h : scanStep data pe pos = .accept l next) : pos < next := by
  unfold scanStep at h
  rcases hh : readHeader data pe pos with n | _ | ⟨bt, bc, pad, bs, unk, np⟩ <;> rw [hh] at h
  · simp at h
  · simp at h
  · dsimp only at h
    split at h
    · have h2 := readPoints_pos_le data pe np (pos + 24)
      cases h
      omega
    · simp at h

/-- The per-layer stroke scan loop (part_001 lines 101-225): repeatedly take
one scan step; a rejection resynchronizes at the next byte, an acceptance
appends the stroke and continues past its point data. -/
def scanLines (data : List Nat) (pe pos : Nat) : List Line × Nat :=
  if h : pos < pe - 50 then
    match hs : scanStep data pe pos with
    | .stop n => ([], n)
    | .reject => scanLines data pe (pos + 1)
    | .accept l next =>
      let rest := scanLines data pe next
      (l :: rest.1, rest.2)
  else ([], pos)
termination_by pe - pos
decreasing_by
  · omega
  · have := scanStep_accept_lt data pe pos l next hs
    omega

/-- The 6-byte ASCII literal compared by the layer-marker search.  The
source compares a 7-byte slice `data[i:i+7]` with this 6-byte literal, so
the comparison can never succeed; it is embedded verbatim. -/
def layerToken : List Nat := [76, 97, 121, 101, 114, 32]

/-- Marker test at one position (part_001 line 89). -/
def isLayerMarkerAt (data : List Nat) (i : Nat) : Bool :=
  i + 7 < data.length && ((data.drop i).take 7 == layerToken)

/-- The layer-marker search (part_001 lines 87-93): first hit scanning from
`pos` while the index stays below `len(data) - 10`. -/
def findLayerMarker (data : List Nat) (pos : Nat) : Option Nat :=
  (List.range' pos (data.length - 10 - pos)).find? (isLayerMarkerAt data)

/-- The layer-name skip loop (part_001 lines 230-233). -/
def layerNameEndAux (data : List Nat) (lp ne : Nat) : Nat :=
  if h : ne < data.length ∧ byteAt data ne ≠ 0 ∧ byteAt data ne ≠ 60 ∧ ne < lp + 20 then
    layerNameEndAux data lp (ne + 1)
  else ne
termination_by lp + 20 - ne
decreasing_by omega

def layerNameEnd (data : List Nat) (lp : Nat) : Nat := layerNameEndAux data lp (lp + 7)

/-- The per-layer loop (part_001 lines 83-238): locate the layer marker,
scan strokes inside the parse window, and advance the outer cursor. -/
def parseLayersAux (data : List Nat) (numLayers layerIdx pos : Nat) : List (List Line) :=
  if _h : layerIdx < numLayers then
    let lnp : Int := match findLayerMarker data pos with
      | some i => (i : Int)
      | none => -1
    let parseEnd : Nat :=
      if 0 < lnp ∧ layerIdx < numLayers - 1 then lnp.toNat else data.length
    let res := scanLines data parseEnd pos
    let nextPos : Nat :=
      if 0 < lnp then layerNameEnd data lnp.toNat else res.2
    res.1 :: parseLayersAux data numLayers (layerIdx + 1) nextPos
  else []
termination_by numLayers - layerIdx
decreasing_by omega

/-- Decoder failure reasons (the error strings of part_001 lines 38-77). -/
inductive DecodeErr where
  | fileTooShort
  | notVersion6
  | unexpectedEnd
  deriving DecidableEq

/-- The 9-byte ASCII marker searched for in the 43-byte header. -/
def version6Token : List Nat := [118, 101, 114, 115, 105, 111, 110, 61, 54]

/-- `strings.Contains(header, "version=6")`. -/
def containsVersion6 (header : List Nat) : Bool :=
  (List.range header.length).any fun i => (header.drop i).take 9 == version6Token

/-- `parseRmVersion6` (part_001 lines 36-241): header validation, fixed
metadata skips, then the per-layer stroke scan starting at byte 80. -/
def parseRmVersion6 (data : List Nat) : Except DecodeErr Rm :=
  if data.length < 43 then .error .fileTooShort
  else if !containsVersion6 (data.take 43) then .error .notVersion6
  else if 43 + 5 > data.length then .error .unexpectedEnd
  else if 48 + 5 > data.length then .error .unexpectedEnd
  else if 53 + 4 > data.length then .error .unexpectedEnd
  else
    let numLayers := le32 data 53
    if 57 + 16 > data.length then .error .unexpectedEnd
    else if 73 + 7 > data.length then .error .unexpectedEnd
    else .ok ⟨(parseLayersAux data numLayers 0 80).map Layer.mk⟩

/-! The pen model (src/hwr/pens.go).  Brush types are the closed enumeration
of `rm.BrushType`; float32 arithmetic is modelled as exact rational
arithmetic.  `math.Pow` and `math.Sqrt` are modelled by an abstract record
of operations `FloatOps`; the only fact any theorem needs about them is
that the square root of zero is zero (an exact IEEE identity). -/

/-- Abstract transcendental float constants and operations (`math.Pi`,
`math.Pow`, `math.Sqrt`), none of which have exact rational values. -/
structure FloatOps where
  pi : ℚ
  pow : ℚ → ℚ → ℚ
  sqrt : ℚ → ℚ
  sqrt_zero : sqrt 0 = 0

/-- A trivial interpretation of the abstract operations, used to evaluate
concrete instances. -/
def opsId : FloatOps := ⟨3, fun x _ => x, fun x => x, rfl⟩

/-- `rm.BrushType`: the closed enumeration of pen types. -/
inductive BrushType where
  | Brush | TiltPencil | BallPoint | Marker | Fineliner | Highlighter | Eraser
  | SharpPencil | EraseArea | EraseAll | SelectionBrush | SelectionBrush2
  | BrushV5 | SharpPencilV5 | TiltPencilV5 | BallPointV5 | MarkerV5 | FinelinerV5
  | HighlighterV5
  deriving DecidableEq

/-- An RGB triple (each channel a uint8 value). -/
structure RGB where
  r : Nat
  g : Nat
  b : Nat
  deriving DecidableEq

/-- `ColorPalette`: Remarkable color IDs to RGB values (pens.go lines 11-26);
lookup failure is handled in `NewPenRenderer`. -/
def ColorPalette : Nat → Option RGB
  | 0 => some ⟨0, 0, 0⟩
  | 1 => some ⟨144, 144, 144⟩
  | 2 => some ⟨255, 255, 255⟩
  | 3 => some ⟨251, 247, 25⟩
  | 4 => some ⟨0, 255, 0⟩
  | 5 => some ⟨255, 192, 203⟩
  | 6 => some ⟨78, 105, 201⟩
  | 7 => some ⟨179, 62, 57⟩
  | 8 => some ⟨125, 125, 125⟩
  | 9 => some ⟨251, 247, 25⟩
  | 10 => some ⟨161, 216, 125⟩
  | 11 => some ⟨139, 208, 229⟩
  | 12 => some ⟨183, 130, 205⟩
  | 13 => some ⟨247, 232, 81⟩
  | _ => none

def finelinerWidthMultiplier : ℚ := 18 / 10

def highlighterBaseWidth : ℚ := 15

def opacityFull : ℚ := 1

def opacityPencil : ℚ := 9 / 10

def opacityMechanical : ℚ := 7 / 10

def opacityHighlighterConst : ℚ := 3 / 10

def eraserWidthMultiplier : ℚ := 2

def directionToTiltDivisor : ℚ := 255

/-- `directionToTiltMultiplier = math.Pi * 2`, with π from the abstract
operation record. -/
def directionToTiltMultiplier (ops : FloatOps) : ℚ := ops.pi * 2

/-- `PenRenderer` (pens.go lines 55-60). -/
structure PenRenderer where
  baseWidth : ℚ
  baseColor : RGB
  baseOpacity : ℚ
  penType : BrushType
  deriving DecidableEq

/-- `NewPenRenderer` (pens.go lines 64-117). -/
def NewPenRenderer (brushType : BrushType) (colorID : Nat) (brushSize : ℚ) : PenRenderer :=
  let baseColor := match ColorPalette colorID with
    | some c => c
    | none => ⟨0, 0, 0⟩
  let pr : PenRenderer :=
    { baseWidth := brushSize, baseColor := baseColor, baseOpacity := opacityFull,
      penType := brushType }
  match brushType with
  | .Brush | .BrushV5 => { pr with baseOpacity := opacityFull }
  | .BallPoint | .BallPointV5 => { pr with baseOpacity := opacityFull }
  | .Fineliner | .FinelinerV5 =>
    { pr with baseWidth := brushSize * finelinerWidthMultiplier, baseOpacity := opacityFull }
  | .Marker | .MarkerV5 => { pr with baseOpacity := opacityFull }
  | .TiltPencil | .TiltPencilV5 => { pr with baseOpacity := opacityPencil }
  | .SharpPencil | .SharpPencilV5 =>
    { pr with baseWidth := brushSize * brushSize, baseOpacity := opacityMechanical }
  | .Highlighter | .HighlighterV5 =>
    { pr with baseWidth := highlighterBaseWidth, baseOpacity := opacityHighlighterConst }
  | .Eraser =>
    { pr with baseWidth := brushSize * eraserWidthMultiplier, baseColor := ⟨255, 255, 255⟩,
              baseOpacity := opacityFull }
  | .EraseArea => { pr with baseColor := ⟨255, 255, 255⟩, baseOpacity := 0 }
  | _ => pr

/-- `directionToTilt` (pens.go lines 265-267). -/
def directionToTilt (ops : FloatOps) (direction : ℚ) : ℚ :=
  direction * directionToTiltMultiplier ops / directionToTiltDivisor

/-- `clamp` (pens.go lines 270-278). -/
def clamp (value : ℚ) : ℚ :=
  if value < 0 then 0 else if value > 1 then 1 else value

/-- `calculateBrushWidth` (pens.go lines 182-186). -/
def calculateBrushWidth (ops : FloatOps) (_pr : PenRenderer)
    (speed direction width pressure : ℚ) : ℚ :=
  let tilt := directionToTilt ops direction
  7 / 10 * (((1 + 14 / 10 * pressure) * (width / 4)) - 5 / 10 * tilt - speed / 4 / 50)

/-- `calculateBallpointWidth` (pens.go lines 190-192). -/
def calculateBallpointWidth (_pr : PenRenderer) (speed width pressure : ℚ) : ℚ :=
  (5 / 10 + pressure) + width / 4 - 5 / 10 * (speed / 4 / 50)

/-- `calculateMarkerWidth` (pens.go lines 196-199). -/
def calculateMarkerWidth (ops : FloatOps) (_pr : PenRenderer) (direction width : ℚ) : ℚ :=
  let tilt := directionToTilt ops direction
  9 / 10 * (width / 4 - 4 / 10 * tilt)

/-- `calculatePencilWidth` (pens.go lines 203-213); `math.Pow(tilt, 1.8)` is
the abstract `ops.pow`. -/
def calculatePencilWidth (ops : FloatOps) (pr : PenRenderer)
    (speed direction width pressure : ℚ) : ℚ :=
  let tilt := directionToTilt ops direction
  let segmentWidth := 7 / 10 * (((8 / 10 * pr.baseWidth + 5 / 10 * pressure) * (width / 4)) -
    25 / 100 * ops.pow tilt (18 / 10) - 6 / 10 * (speed / 4 / 50))
  let maxWidth := pr.baseWidth * 10
  if segmentWidth > maxWidth then maxWidth else segmentWidth

/-- `GetStrokeWidth` (pens.go lines 121-142). -/
def GetStrokeWidth (ops : FloatOps) (pr : PenRenderer)
    (speed direction width pressure : ℚ) : ℚ :=
  match pr.penType with
  | .Brush | .BrushV5 => calculateBrushWidth ops pr speed direction width pressure
  | .BallPoint | .BallPointV5 => calculateBallpointWidth pr speed width pressure
  | .Marker | .MarkerV5 => calculateMarkerWidth ops pr direction width
  | .TiltPencil | .TiltPencilV5 => calculatePencilWidth ops pr speed direction width pressure
  | .SharpPencil | .SharpPencilV5 => pr.baseWidth
  | _ => pr.baseWidth * (5 / 10 + pressure * (5 / 10))

/-- Truncation toward zero, Go's float-to-int conversion. -/
def truncQ (q : ℚ) : Int :=
  if q < 0 then Int.ceil q else Int.floor q

/-- Conversion to a uint8 channel value, as used on in-range results. -/
def toU8 (q : ℚ) : Nat := (truncQ q).toNat

/-- `calculateBrushColor` (pens.go lines 217-241); `math.Pow(pressure, 1.5)`
is the abstract `ops.pow`. -/
def calculateBrushColor (ops : FloatOps) (pr : PenRenderer) (speed pressure : ℚ) : RGB :=
  if pr.baseColor.r = 255 ∧ pr.baseColor.g = 255 ∧ pr.baseColor.b = 255 then
    let intensity := clamp ((ops.pow pressure (15 / 10) - 2 / 10 * (speed / 4 / 50)) * 15 / 10)
    let grayValue := toU8 (250 - intensity * 15)
    ⟨grayValue, grayValue, grayValue⟩
  else
    let intensity := clamp ((ops.pow pressure (15 / 10) - 2 / 10 * (speed / 4 / 50)) * 15 / 10)
    let revIntensity := |intensity - 1|
    ⟨toU8 (revIntensity * (255 - pr.baseColor.r)),
     toU8 (revIntensity * (255 - pr.baseColor.g)),
     toU8 (revIntensity * (255 - pr.baseColor.b))⟩

/-- `calculateBallpointColor` (pens.go lines 245-250). -/
def calculateBallpointColor (_pr : PenRenderer) (speed pressure : ℚ) : RGB :=
  let intensity := clamp (1 / 10 * -(speed / 4 / 35) + 12 / 10 * pressure + 5 / 10)
  let gray := toU8 (min (|intensity - 1| * 255) 60)
  ⟨gray, gray, gray⟩

/-- `GetStrokeColor` (pens.go lines 146-157). -/
def GetStrokeColor (ops : FloatOps) (pr : PenRenderer)
    (speed _direction _width pressure : ℚ) : RGB :=
  match pr.penType with
  | .Brush | .BrushV5 => calculateBrushColor ops pr speed pressure
  | .BallPoint | .BallPointV5 => calculateBallpointColor pr speed pressure
  | _ => pr.baseColor

/-- `calculatePencilOpacity` (pens.go lines 254-261). -/
def calculatePencilOpacity (_pr : PenRenderer) (speed pressure : ℚ) : ℚ :=
  let opacity := clamp (1 / 10 * -(speed / 4 / 35) + 1 * pressure) - 1 / 10
  if opacity < 0 then 0 else opacity

/-- `GetStrokeOpacity` (pens.go lines 161-178). -/
def GetStrokeOpacity (pr : PenRenderer) (speed _direction _width pressure : ℚ) : ℚ :=
  match pr.penType with
  | .TiltPencil | .TiltPencilV5 => calculatePencilOpacity pr speed pressure
  | .Highlighter | .HighlighterV5 => 2 / 10
  | .SharpPencil | .SharpPencilV5 => pr.baseOpacity
  | .EraseArea => 0
  | _ => pr.baseOpacity

/-! The raster renderer (the visualization half of src/hwr/hwr.go).  The
canvas is a total pixel function; `img.Set` is function update; uint8
channel values are natural numbers; Go float-to-int conversions truncate
toward zero (`truncQ`/`toU8`). -/

/-- An RGBA pixel as stored by `image.RGBA`. -/
structure RGBA where
  r : Nat
  g : Nat
  b : Nat
  a : Nat
  deriving DecidableEq

/-- The canvas: a total assignment of pixels to coordinates. -/
def Image : Type := Int → Int → RGBA

/-- `img.Set(x, y, c)`. -/
def setPix (img : Image) (x y : Int) (c : RGBA) : Image :=
  fun a b => if a = x ∧ b = y then c else img a b

/-- `image.NewRGBA`: zero-initialized pixels. -/
def newImage : Image := fun _ _ => ⟨0, 0, 0, 0⟩

def white : RGBA := ⟨255, 255, 255, 255⟩

/-- The inclusive integer interval `[lo..hi]`, the index set of a Go
`for v := lo; v <= hi; v++` loop. -/
def intRange (lo hi : Int) : List Int :=
  (List.range (hi + 1 - lo).toNat).map fun (i : Nat) => lo + (i : Int)

/-- Row-major scan order of a `for y { for x } }` pixel loop pair. -/
def coordList (w h : Int) : List (Int × Int) :=
  (intRange 0 (h - 1)).flatMap fun y => (intRange 0 (w - 1)).map fun x => (x, y)

/-- `fillWhiteBackground` (hwr.go lines 824-831). -/
def fillWhiteBackground (img : Image) (width height : Int) : Image :=
  (coordList width height).foldl (fun im p => setPix im p.1 p.2 white) img

/-- `createEmptyImage` (hwr.go lines 834-838), with PNG encoding external. -/
def createEmptyImage (width height : Int) : Image :=
  fillWhiteBackground newImage width height

/-- The `(dx, dy)` offset pairs visited by the circle-drawing loops, in
source order (dy outer, dx inner). -/
def circleOffsets (radius : Int) : List (Int × Int) :=
  (intRange (-radius) radius).flatMap fun dy => (intRange (-radius) radius).map fun dx => (dx, dy)

/-- `drawFilledCircle` (hwr.go lines 853-868): direct pixel writes, no
blending. -/
def drawFilledCircle (img : Image) (cx cy radius : Int) (c : RGBA)
    (imgWidth imgHeight : Int) : Image :=
  if radius ≤ 0 then img
  else
    (circleOffsets radius).foldl (fun im d =>
      if d.1 * d.1 + d.2 * d.2 ≤ radius * radius then
        if 0 ≤ cx + d.1 ∧ cx + d.1 < imgWidth ∧ 0 ≤ cy + d.2 ∧ cy + d.2 < imgHeight then
          setPix im (cx + d.1) (cy + d.2) c
        else im
      else im) img

/-- `blendColors` (hwr.go lines 1068-1077): source-over alpha compositing. -/
def blendColors (bg fg : RGBA) : RGBA :=
  let alpha : ℚ := (fg.a : ℚ) / 255
  let invAlpha : ℚ := 1 - alpha
  ⟨toU8 ((fg.r : ℚ) * alpha + (bg.r : ℚ) * invAlpha),
   toU8 ((fg.g : ℚ) * alpha + (bg.g : ℚ) * invAlpha),
   toU8 ((fg.b : ℚ) * alpha + (bg.b : ℚ) * invAlpha), 255⟩

/-- One guarded blended pixel write of the loop body of
`drawFilledCircleBlended`. -/
def circleBlendStep (c : RGBA) (cx cy radius W H : Int) (im : Image) (d : Int × Int) : Image :=
  if d.1 * d.1 + d.2 * d.2 ≤ radius * radius then
    if 0 ≤ cx + d.1 ∧ cx + d.1 < W ∧ 0 ≤ cy + d.2 ∧ cy + d.2 < H then
      setPix im (cx + d.1) (cy + d.2) (blendColors (im (cx + d.1) (cy + d.2)) c)
    else im
  else im

/-- `drawFilledCircleBlended` (hwr.go lines 871-888): like
`drawFilledCircle` but every write blends with the existing pixel. -/
def drawFilledCircleBlended (img : Image) (cx cy radius : Int) (c : RGBA)
    (imgWidth imgHeight : Int) : Image :=
  if radius ≤ 0 then img
  else (circleOffsets radius).foldl (circleBlendStep c cx cy radius imgWidth imgHeight) img

/-- `pointInPolygon` (hwr.go lines 1053-1064): ray casting with Go's
truncating integer division. -/
def pointInPolygon (x y : Int) (xs ys : List Int) : Bool :=
  let n := xs.length
  (List.range n).foldl (fun acc i =>
    let j := if i = 0 then n - 1 else i - 1
    let xi := xs.getD i 0
    let yi := ys.getD i 0
    let xj := xs.getD j 0
    let yj := ys.getD j 0
    if (decide (yi > y) != decide (yj > y)) &&
        decide (x < Int.tdiv ((xj - xi) * (y - yi)) (yj - yi) + xi) then !acc else acc) false

/-- `drawFilledPolygonBlended` (hwr.go lines 947-996). -/
def drawFilledPolygonBlended (img : Image) (xs ys : List Int) (c : RGBA)
    (imgWidth imgHeight : Int) : Image :=
  if xs.length ≠ ys.length ∨ xs.length < 3 then img
  else
    let minX1 := xs.foldl min (xs.getD 0 0)
    let maxX1 := xs.foldl max (xs.getD 0 0)
    let minY1 := ys.foldl min (ys.getD 0 0)
    let maxY1 := ys.foldl max (ys.getD 0 0)
    let minX := if minX1 < 0 then 0 else minX1
    let maxX := if maxX1 ≥ imgWidth then imgWidth - 1 else maxX1
    let minY := if minY1 < 0 then 0 else minY1
    let maxY := if maxY1 ≥ imgHeight then imgHeight - 1 else maxY1
    ((intRange minY maxY).flatMap fun y => (intRange minX maxX).map fun x => (x, y)).foldl
      (fun im p =>
        if pointInPolygon p.1 p.2 xs ys then
          if 0 ≤ p.1 ∧ p.1 < imgWidth ∧ 0 ≤ p.2 ∧ p.2 < imgHeight then
            setPix im p.1 p.2 (blendColors (im p.1 p.2) c)
          else im
        else im) img

/-- `drawThickContinuousStroke` (hwr.go lines 892-944). -/
def drawThickContinuousStroke (ops : FloatOps) (img : Image) (points : List (Int × Int))
    (width : Int) (strokeColor : RGBA) (imgWidth imgHeight : Int) : Image :=
  if points.length < 2 then img
  else
    let halfWidth : ℚ := (width : ℚ) / 2
    let n := points.length
    let img1 := (List.range (n - 1)).foldl (fun im i =>
      let p1 := points.getD i (0, 0)
      let p2 := points.getD (i + 1) (0, 0)
      let dx : ℚ := ((p2.1 - p1.1 : Int) : ℚ)
      let dy : ℚ := ((p2.2 - p1.2 : Int) : ℚ)
      let length := ops.sqrt (dx * dx + dy * dy)
      if length = 0 then im
      else
        let dxn := dx / length
        let dyn := dy / length
        let px := -dyn
        let py := dxn
        let sx1 := (p1.1 : ℚ) + px * halfWidth
        let sy1 := (p1.2 : ℚ) + py * halfWidth
        let sx2 := (p1.1 : ℚ) - px * halfWidth
        let sy2 := (p1.2 : ℚ) - py * halfWidth
        let ex1 := (p2.1 : ℚ) + px * halfWidth
        let ey1 := (p2.2 : ℚ) + py * halfWidth
        let ex2 := (p2.1 : ℚ) - px * halfWidth
        let ey2 := (p2.2 : ℚ) - py * halfWidth
        let im2 := drawFilledPolygonBlended im
          [truncQ sx1, truncQ sx2, truncQ ex2, truncQ ex1]
          [truncQ sy1, truncQ sy2, truncQ ey2, truncQ ey1]
          strokeColor imgWidth imgHeight
        if i = n - 2 then
          drawFilledCircleBlended im2 p2.1 p2.2 (Int.tdiv width 2) strokeColor imgWidth imgHeight
        else im2) img
    drawFilledCircleBlended img1 (points.getD 0 (0, 0)).1 (points.getD 0 (0, 0)).2
      (Int.tdiv width 2) strokeColor imgWidth imgHeight

/-- `drawVariableWidthLineWithColor` (hwr.go lines 1000-1048): the capsule
body of the second draw pass, sampled in device-pixel steps, each sample a
`drawFilledCircle` write. -/
def drawVariableWidthLineWithColor (ops : FloatOps) (img : Image) (x1 y1 : Int) (width1 : Int)
    (x2 y2 : Int) (width2 : Int) (color1 color2 : RGB) (opacity1 opacity2 : ℚ)
    (imgWidth imgHeight : Int) : Image :=
  let dx : ℚ := ((x2 - x1 : Int) : ℚ)
  let dy : ℚ := ((y2 - y1 : Int) : ℚ)
  let length := ops.sqrt (dx * dx + dy * dy)
  if length = 0 then
    let c : RGBA := ⟨color1.r, color1.g, color1.b, toU8 (255 * opacity1)⟩
    drawFilledCircle img x1 y1 width1 c imgWidth imgHeight
  else
    let dxn := dx / length
    let dyn := dy / length
    let steps0 := truncQ length + 1
    let steps := if steps0 < 2 then 2 else steps0
    (intRange 0 steps).foldl (fun im i =>
      let t : ℚ := (i : ℚ) / (steps : ℚ)
      let x := (x1 : ℚ) + dxn * length * t
      let y := (y1 : ℚ) + dyn * length * t
      let w := (width1 : ℚ) + ((width2 : ℚ) - (width1 : ℚ)) * t
      let radius0 := truncQ (w + 5 / 10)
      let radius := if radius0 < 1 then 1 else radius0
      let r := toU8 ((color1.r : ℚ) + ((color2.r : ℚ) - (color1.r : ℚ)) * t)
      let g := toU8 ((color1.g : ℚ) + ((color2.g : ℚ) - (color1.g : ℚ)) * t)
      let b := toU8 ((color1.b : ℚ) + ((color2.b : ℚ) - (color1.b : ℚ)) * t)
      let opacity := opacity1 + (opacity2 - opacity1) * t
      let a := toU8 (255 * opacity)
      drawFilledCircle im (truncQ (x + 5 / 10)) (truncQ (y + 5 / 10)) radius ⟨r, g, b, a⟩
        imgWidth imgHeight) img

/-- A stroke point as consumed by the renderer (`rm.Point` with its float32
fields modelled as exact rationals). -/
structure VPoint where
  x : ℚ
  y : ℚ
  speed : ℚ
  direction : ℚ
  width : ℚ
  pressure : ℚ
  deriving DecidableEq

instance : Inhabited VPoint := ⟨⟨0, 0, 0, 0, 0, 0⟩⟩

/-- A stroke as consumed by the renderer (`rm.Line`). -/
structure VLine where
  brushType : BrushType
  brushColor : Nat
  brushSize : ℚ
  points : List VPoint
  deriving DecidableEq

/-- `rm.Layer` on the renderer side. -/
structure VLayer where
  lines : List VLine
  deriving DecidableEq

/-- `rm.Rm` on the renderer side (`page.Data`). -/
structure PageData where
  layers : List VLayer
  deriving DecidableEq

/-- `VisualizationConfig` (hwr.go lines 519-532). -/
structure VisualizationConfig where
  OutputWidth : Int
  PaddingPercent : ℚ
  MinPadding : ℚ
  StrokeWidthScale : ℚ
  MinStrokeWidth : Int
  MaxStrokeWidth : Int
  deriving DecidableEq

/-- `DefaultVisualizationConfig` (hwr.go lines 535-544). -/
def DefaultVisualizationConfig : VisualizationConfig :=
  ⟨1404, 5 / 100, 50, 25 / 100, 1, 8⟩

def minImageHeight : Int := 100

def highlighterBaseWidthPixels : ℚ := 15

def highlighterWidthMultiplierPixels : ℚ := 4

def highlighterMinWidth : Int := 20

def highlighterMaxWidth : Int := 100

def highlighterOpacity : ℚ := 45 / 100

def highlighterColorLighten : ℚ := 7 / 10

def highlighterWhiteMix : ℚ := 3 / 10

/-- `boundingBox` (hwr.go lines 588-591). -/
structure boundingBox where
  minX : ℚ
  minY : ℚ
  maxX : ℚ
  maxY : ℚ
  paddingX : ℚ
  paddingY : ℚ
  deriving DecidableEq

/-- One point folded into the bounding-box accumulator (`hasPoints` is the
`Option`); mirrors hwr.go lines 606-625. -/
def bboxAccPoint (acc : Option (ℚ × ℚ × ℚ × ℚ)) (p : VPoint) : Option (ℚ × ℚ × ℚ × ℚ) :=
  match acc with
  | none => some (p.x, p.y, p.x, p.y)
  | some (mnx, mny, mxx, mxy) =>
    some (if p.x < mnx then p.x else mnx, if p.y < mny then p.y else mny,
          if p.x > mxx then p.x else mxx, if p.y > mxy then p.y else mxy)

/-- `calculateBoundingBox` (hwr.go lines 595-654): scan all strokes except
erase-area strokes and strokes with fewer than 2 points; `none` when no
stroke qualifies. -/
def calculateBoundingBox (pageData : PageData) (config : VisualizationConfig) :
    Option boundingBox :=
  let acc := pageData.layers.foldl (fun a layer =>
    layer.lines.foldl (fun a2 line =>
      if line.brushType = BrushType.EraseArea ∨ line.points.length < 2 then a2
      else line.points.foldl bboxAccPoint a2) a) none
  match acc with
  | none => none
  | some (mnx, mny, mxx, mxy) =>
    let contentWidth := mxx - mnx
    let contentHeight := mxy - mny
    let paddingX0 := contentWidth * config.PaddingPercent
    let paddingY0 := contentHeight * config.PaddingPercent
    let paddingX := if paddingX0 < config.MinPadding then config.MinPadding else paddingX0
    let paddingY := if paddingY0 < config.MinPadding then config.MinPadding else paddingY0
    some ⟨mnx, mny, mxx, mxy, paddingX, paddingY⟩

/-- `calculateImageDimensions` (hwr.go lines 658-672). -/
def calculateImageDimensions (bbox : boundingBox) (config : VisualizationConfig) :
    ℚ × ℚ × Int × Int :=
  let contentWidth := bbox.maxX - bbox.minX + bbox.paddingX * 2
  let contentHeight := bbox.maxY - bbox.minY + bbox.paddingY * 2
  if contentWidth ≤ 0 then (1, 1, config.OutputWidth, minImageHeight)
  else
    let scaleX := (config.OutputWidth : ℚ) / contentWidth
    let scaleY := scaleX
    (scaleX, scaleY, config.OutputWidth, truncQ (contentHeight * scaleY))

/-- `transformPoint` (hwr.go lines 815-819). -/
def transformPoint (x y : ℚ) (bbox : boundingBox) (scaleX scaleY : ℚ) : Int × Int :=
  (truncQ ((x - bbox.minX + bbox.paddingX) * scaleX),
   truncQ ((y - bbox.minY + bbox.paddingY) * scaleY))

/-- `clampStrokeWidth` (hwr.go lines 804-812). -/
def clampStrokeWidth (width : Int) (config : VisualizationConfig) : Int :=
  if width < config.MinStrokeWidth then config.MinStrokeWidth
  else if width > config.MaxStrokeWidth then config.MaxStrokeWidth
  else width

/-- `lightenColor` (hwr.go lines 783-789). -/
def lightenColor (baseColor : RGB) : RGB :=
  ⟨toU8 ((baseColor.r : ℚ) * highlighterColorLighten + 255 * highlighterWhiteMix),
   toU8 ((baseColor.g : ℚ) * highlighterColorLighten + 255 * highlighterWhiteMix),
   toU8 ((baseColor.b : ℚ) * highlighterColorLighten + 255 * highlighterWhiteMix)⟩

/-- `calculateHighlighterWidth` (hwr.go lines 792-801). -/
def calculateHighlighterWidth (config : VisualizationConfig) : Int :=
  let width := truncQ (highlighterBaseWidthPixels * config.StrokeWidthScale *
    highlighterWidthMultiplierPixels)
  if width < highlighterMinWidth then highlighterMinWidth
  else if width > highlighterMaxWidth then highlighterMaxWidth
  else width

/-- `drawHighlighterLine` (hwr.go lines 758-780). -/
def drawHighlighterLine (ops : FloatOps) (img : Image) (line : VLine) (bbox : boundingBox)
    (scaleX scaleY : ℚ) (imgWidth imgHeight : Int) (pen : PenRenderer)
    (config : VisualizationConfig) : Image :=
  if line.points.length < 2 then img
  else
    let lightColor := lightenColor pen.baseColor
    let width := calculateHighlighterWidth config
    let points := line.points.map fun p => transformPoint p.x p.y bbox scaleX scaleY
    let alphaValue := 255 * highlighterOpacity
    let alpha := toU8 alphaValue
    let strokeColor : RGBA := ⟨lightColor.r, lightColor.g, lightColor.b, alpha⟩
    drawThickContinuousStroke ops img points width strokeColor imgWidth imgHeight

/-- `drawRegularStroke` (hwr.go lines 722-754). -/
def drawRegularStroke (ops : FloatOps) (img : Image) (line : VLine) (bbox : boundingBox)
    (scaleX scaleY : ℚ) (imgWidth imgHeight : Int) (pen : PenRenderer)
    (config : VisualizationConfig) : Image :=
  match line.points with
  | [] => img
  | p0 :: _ =>
    let t0 := transformPoint p0.x p0.y bbox scaleX scaleY
    let width0 := GetStrokeWidth ops pen p0.speed p0.direction p0.width p0.pressure
    let color0 := GetStrokeColor ops pen p0.speed p0.direction p0.width p0.pressure
    let opacity0 := GetStrokeOpacity pen p0.speed p0.direction p0.width p0.pressure
    let radius0 := clampStrokeWidth (truncQ (width0 * config.StrokeWidthScale)) config
    let strokeColor0 : RGBA := ⟨color0.r, color0.g, color0.b, toU8 (255 * opacity0)⟩
    let img1 := drawFilledCircle img t0.1 t0.2 radius0 strokeColor0 imgWidth imgHeight
    (List.range (line.points.length - 1)).foldl (fun im i =>
      let p1 := line.points.getD i default
      let p2 := line.points.getD (i + 1) default
      let t1 := transformPoint p1.x p1.y bbox scaleX scaleY
      let t2 := transformPoint p2.x p2.y bbox scaleX scaleY
      let width1 := GetStrokeWidth ops pen p1.speed p1.direction p1.width p1.pressure
      let width2 := GetStrokeWidth ops pen p2.speed p2.direction p2.width p2.pressure
      let color1 := GetStrokeColor ops pen p1.speed p1.direction p1.width p1.pressure
      let color2 := GetStrokeColor ops pen p2.speed p2.direction p2.width p2.pressure
      let opacity1 := GetStrokeOpacity pen p1.speed p1.direction p1.width p1.pressure
      let opacity2 := GetStrokeOpacity pen p2.speed p2.direction p2.width p2.pressure
      let pixelWidth1 := clampStrokeWidth (truncQ (width1 * config.StrokeWidthScale)) config
      let pixelWidth2 := clampStrokeWidth (truncQ (width2 * config.StrokeWidthScale)) config
      drawVariableWidthLineWithColor ops im t1.1 t1.2 pixelWidth1 t2.1 t2.2 pixelWidth2
        color1 color2 opacity1 opacity2 imgWidth imgHeight) img1

/-- `drawLine` (hwr.go lines 705-719). -/
def drawLine (ops : FloatOps) (img : Image) (line : VLine) (bbox : boundingBox)
    (scaleX scaleY : ℚ) (imgWidth imgHeight : Int) (pen : PenRenderer)
    (config : VisualizationConfig) : Image :=
  if line.points.length = 0 then img
  else if line.brushType = BrushType.Highlighter ∨ line.brushType = BrushType.HighlighterV5 then
    drawHighlighterLine ops img line bbox scaleX scaleY imgWidth imgHeight pen config
  else
    drawRegularStroke ops img line bbox scaleX scaleY imgWidth imgHeight pen config

/-- `drawStrokesByType` (hwr.go lines 685-701). -/
def drawStrokesByType (ops : FloatOps) (img : Image) (pageData : PageData) (bbox : boundingBox)
    (scaleX scaleY : ℚ) (imgWidth imgHeight : Int) (config : VisualizationConfig)
    (drawHighlighters : Bool) : Image :=
  pageData.layers.foldl (fun im layer =>
    layer.lines.foldl (fun im2 line =>
      if line.brushType = BrushType.EraseArea ∨ line.points.length < 2 then im2
      else
        let isHighlighter :=
          line.brushType = BrushType.Highlighter ∨ line.brushType = BrushType.HighlighterV5
        if (drawHighlighters = true ∧ ¬isHighlighter) ∨ (drawHighlighters = false ∧ isHighlighter)
        then im2
        else
          let pen := NewPenRenderer line.brushType line.brushColor line.brushSize
          drawLine ops im2 line bbox scaleX scaleY imgWidth imgHeight pen config) im) img

/-- `drawStrokes` (hwr.go lines 676-682): highlighter pass first, then the
pass for all other strokes. -/
def drawStrokes (ops : FloatOps) (img : Image) (pageData : PageData) (bbox : boundingBox)
    (scaleX scaleY : ℚ) (imgWidth imgHeight : Int) (config : VisualizationConfig) : Image :=
  drawStrokesByType ops
    (drawStrokesByType ops img pageData bbox scaleX scaleY imgWidth imgHeight config true)
    pageData bbox scaleX scaleY imgWidth imgHeight config false

/-- A produced raster image with its dimensions. -/
structure RImage where
  w : Int
  h : Int
  pix : Image

/-- `VisualizePageWithConfig` (hwr.go lines 554-585).  PNG encoding and the
output file are external; the model returns the rendered image, and `.ok
none` models the source's silent `return nil` paths that write nothing. -/
def VisualizePageWithConfig (ops : FloatOps) (pages : List (Option PageData))
    (pageNumber : Int) (config : VisualizationConfig) : Except Unit (Option RImage) :=
  if pageNumber < 0 ∨ pageNumber ≥ (pages.length : Int) then .ok none
  else
    match pages.getD pageNumber.toNat none with
    | none => .ok none
    | some pageData =>
      match calculateBoundingBox pageData config with
      | none =>
        .ok (some ⟨config.OutputWidth, minImageHeight,
          createEmptyImage config.OutputWidth minImageHeight⟩)
      | some bbox =>
        let dims := calculateImageDimensions bbox config
        let imgWidth := dims.2.2.1
        let imgHeight0 := dims.2.2.2
        let imgHeight := if imgHeight0 < minImageHeight then minImageHeight else imgHeight0
        let img0 := fillWhiteBackground newImage imgWidth imgHeight
        let img1 := drawStrokes ops img0 pageData bbox dims.1 dims.2.1 imgWidth imgHeight config
        .ok (some ⟨imgWidth, imgHeight, img1⟩)

/-! Page selection (src/hwr/hwr.go `Hwr` lines 181-194 and `getJson` lines
36-41), plus the last-opened-page resolution of part_001 lines 321-329.
Page identifiers are kept as an arbitrary type with decidable equality. -/

/-- The last-opened-page resolution loop (part_001 lines 321-329): the
stored index of the matching page id, or the zero value when absent. -/
def lastOpenedIndex {α : Type} [DecidableEq α] (ids : List α) (lastID : α) : Nat :=
  match ids.findIdx? (fun i => decide (i = lastID)) with
  | some i => i
  | none => 0

/-- The page indices visited by `Hwr`'s conversion loop (hwr.go lines
181-201): `cfg.Page = 0` is the last-opened sentinel, negative means all
pages, positive is an explicit 1-based page number. -/
def hwrPageRange (cfgPage : Int) (numPages : Nat) (lastOpened : Nat) : List Int :=
  let se : Int × Int :=
    if cfgPage = 0 then ((lastOpened : Int), (lastOpened : Int))
    else if cfgPage < 0 then (0, (numPages : Int) - 1)
    else (cfgPage - 1, cfgPage - 1)
  intRange se.1 se.2

/-- The out-of-range rejection in `getJson` (hwr.go lines 36-41). -/
def getJsonPageCheck (pageNumber : Int) (numPages : Nat) : Bool :=
  decide (pageNumber ≥ (numPages : Int)) || decide (pageNumber < 0)

/-! Pixel-level characterizations of the drawing primitives. -/

theorem mem_intRange {lo hi a : Int} : a ∈ intRange lo hi ↔ lo ≤ a ∧ a ≤ hi := by
  unfold intRange
  rw [List.mem_map]
  constructor
  · rintro ⟨i, hi2, rfl⟩
    rw [List.mem_range] at hi2
    omega
  · intro h
    refine ⟨(a - lo).toNat, ?_, ?_⟩
    · rw [List.mem_range]
      omega
    · omega

theorem intRange_nodup (lo hi : Int) : (intRange lo hi).Nodup := by
  unfold intRange
  refine List.Nodup.map ?_ (List.nodup_range _)
  intro a b hab
  simp only [add_right_inj] at hab
  exact_mod_cast hab

theorem mem_circleOffsets {r : Int} {d : Int × Int} :
    d ∈ circleOffsets r ↔ (-r ≤ d.1 ∧ d.1 ≤ r) ∧ (-r ≤ d.2 ∧ d.2 ≤ r) := by
  rcases d with ⟨dx, dy⟩
  simp only [circleOffsets, List.mem_flatMap, List.mem_map, mem_intRange, Prod.mk.injEq]
  constructor
  · rintro ⟨y, hy, x, hx, rfl, rfl⟩
    exact ⟨hx, hy⟩
  · rintro ⟨hx, hy⟩
    exact ⟨dy, hy, dx, hx, rfl, rfl⟩

theorem circleOffsets_nodup (r : Int) : (circleOffsets r).Nodup := by
  unfold circleOffsets
  refine List.nodup_flatMap.2 ⟨fun dy _ => ?_, ?_⟩
  · refine List.Nodup.map ?_ (intRange_nodup _ _)
    intro a b hab
    exact congrArg Prod.fst hab
  · refine List.Pairwise.imp ?_ (intRange_nodup (-r) r)
    intro a b hab p hpa hpb
    simp only [List.mem_map] at hpa hpb
    rcases hpa with ⟨xa, -, rfl⟩
    rcases hpb with ⟨xb, -, hEq⟩
    exact hab (congrArg Prod.snd hEq).symm

theorem mem_coordList {w h x y : Int} :
    (x, y) ∈ coordList w h ↔ 0 ≤ x ∧ x < w ∧ 0 ≤ y ∧ y < h := by
  simp only [coordList, List.mem_flatMap, List.mem_map, mem_intRange, Prod.mk.injEq]
  constructor
  · rintro ⟨b, hb, a, ha, rfl, rfl⟩
    omega
  · intro hc
    exact ⟨y, by omega, x, by omega, rfl, rfl⟩

theorem foldl_setPix_white (L : List (Int × Int)) :
    ∀ (img : Image) (x y : Int),
      (L.foldl (fun im p => setPix im p.1 p.2 white) img) x y =
        if (x, y) ∈ L then white else img x y := by
  induction L with
  | nil => intro img x y; simp
  | cons p rest ih =>
    intro img x y
    simp only [List.foldl_cons]
    rw [ih]
    by_cases hr : (x, y) ∈ rest
    · simp [hr]
    · by_cases hp : (x, y) = p
      · have hx : x = p.1 := congrArg Prod.fst hp
        have hy : y = p.2 := congrArg Prod.snd hp
        simp [hr, hp, setPix, hx, hy]
      · have hne : ¬(x = p.1 ∧ y = p.2) := by
          intro hc
          exact hp (Prod.ext hc.1 hc.2)
        simp [hr, hp, setPix, hne, List.mem_cons]

/-- Pixel semantics of `fillWhiteBackground`: inside the canvas every pixel
is white, outside it the image is untouched. -/
theorem fillWhiteBackground_pix (img : Image) (w h x y : Int) :
    fillWhiteBackground img w h x y =
      if 0 ≤ x ∧ x < w ∧ 0 ≤ y ∧ y < h then white else img x y := by
  unfold fillWhiteBackground
  rw [foldl_setPix_white]
  exact if_congr mem_coordList rfl rfl

theorem circle_step_pix (c : RGBA) (cx cy radius W H : Int) (img : Image) (d : Int × Int)
    (x y : Int) :
    (if d.1 * d.1 + d.2 * d.2 ≤ radius * radius then
        if 0 ≤ cx + d.1 ∧ cx + d.1 < W ∧ 0 ≤ cy + d.2 ∧ cy + d.2 < H then
          setPix img (cx + d.1) (cy + d.2) c
        else img
      else img) x y =
      if d.1 * d.1 + d.2 * d.2 ≤ radius * radius ∧ cx + d.1 = x ∧ cy + d.2 = y ∧
          0 ≤ x ∧ x < W ∧ 0 ≤ y ∧ y < H then c else img x y := by
  by_cases h1 : d.1 * d.1 + d.2 * d.2 ≤ radius * radius
  · rw [if_pos h1]
    by_cases h2 : 0 ≤ cx + d.1 ∧ cx + d.1 < W ∧ 0 ≤ cy + d.2 ∧ cy + d.2 < H
    · rw [if_pos h2]
      simp only [setPix]
      by_cases h3 : x = cx + d.1 ∧ y = cy + d.2
      · rw [if_pos h3, if_pos ⟨h1, h3.1.symm, h3.2.symm, by rw [h3.1, h3.2]; exact h2⟩]
      · rw [if_neg h3, if_neg ?_]
        rintro ⟨-, hx, hy, -⟩
        exact h3 ⟨hx.symm, hy.symm⟩
    · rw [if_neg h2, if_neg ?_]
      rintro ⟨-, hx, hy, hb⟩
      rw [hx, hy] at h2
      exact h2 hb
  · rw [if_neg h1, if_neg ?_]
    rintro ⟨hc, -⟩
    exact h1 hc

theorem foldl_circle_set (c : RGBA) (cx cy radius W H : Int) (L : List (Int × Int)) :
    ∀ (img : Image) (x y : Int),
      (L.foldl (fun im d =>
        if d.1 * d.1 + d.2 * d.2 ≤ radius * radius then
          if 0 ≤ cx + d.1 ∧ cx + d.1 < W ∧ 0 ≤ cy + d.2 ∧ cy + d.2 < H then
            setPix im (cx + d.1) (cy + d.2) c
          else im
        else im) img) x y =
      if ∃ d ∈ L, d.1 * d.1 + d.2 * d.2 ≤ radius * radius ∧ cx + d.1 = x ∧ cy + d.2 = y ∧
          0 ≤ x ∧ x < W ∧ 0 ≤ y ∧ y < H then c else img x y := by
  induction L with
  | nil => intro img x y; simp
  | cons d rest ih =>
    intro img x y
    simp only [List.foldl_cons]
    rw [ih]
    by_cases hr : ∃ e ∈ rest, e.1 * e.1 + e.2 * e.2 ≤ radius * radius ∧ cx + e.1 = x ∧
        cy + e.2 = y ∧ 0 ≤ x ∧ x < W ∧ 0 ≤ y ∧ y < H
    · rw [if_pos hr, if_pos ?_]
      rcases hr with ⟨e, he, hc⟩
      exact ⟨e, List.mem_cons_of_mem d he, hc⟩
    · rw [if_neg hr, circle_step_pix]
      by_cases hd : d.1 * d.1 + d.2 * d.2 ≤ radius * radius ∧ cx + d.1 = x ∧ cy + d.2 = y ∧
          0 ≤ x ∧ x < W ∧ 0 ≤ y ∧ y < H
      · rw [if_pos hd, if_pos ⟨d, List.mem_cons_self d rest, hd⟩]
      · rw [if_neg hd, if_neg ?_]
        rintro ⟨e, he, hc⟩
        rcases List.mem_cons.1 he with rfl | hmem
        · exact hd hc
        · exact hr ⟨e, hmem, hc⟩

theorem sq_le_bounds {a r : Int} (hr : 0 < r) (h : a * a ≤ r * r) : -r ≤ a ∧ a ≤ r := by
  constructor <;> nlinarith

/-- Pixel semantics of `drawFilledCircle`: a covered, in-bounds pixel is
overwritten with `c` (its alpha channel stored verbatim, with no blending
against the existing pixel); all other pixels are untouched. -/
theorem drawFilledCircle_pix (img : Image) (cx cy radius : Int) (c : RGBA) (W H x y : Int) :
    drawFilledCircle img cx cy radius c W H x y =
      if 0 < radius ∧ (x - cx) * (x - cx) + (y - cy) * (y - cy) ≤ radius * radius ∧
          0 ≤ x ∧ x < W ∧ 0 ≤ y ∧ y < H then c else img x y := by
  unfold drawFilledCircle
  split
  · rw [if_neg]
    rintro ⟨h1, -⟩
    omega
  · rw [foldl_circle_set]
    refine if_congr ?_ rfl rfl
    constructor
    · rintro ⟨d, hd, hsq, hx, hy, hb⟩
      have hd1 : d.1 = x - cx := by omega
      have hd2 : d.2 = y - cy := by omega
      rw [hd1, hd2] at hsq
      exact ⟨by omega, hsq, hb⟩
    · rintro ⟨hrpos, hsq, hb⟩
      refine ⟨(x - cx, y - cy), ?_, hsq, by omega, by omega, hb⟩
      rw [mem_circleOffsets]
      have h1 := sq_le_bounds hrpos (by nlinarith : (x - cx) * (x - cx) ≤ radius * radius)
      have h2 := sq_le_bounds hrpos (by nlinarith : (y - cy) * (y - cy) ≤ radius * radius)
      exact ⟨h1, h2⟩

theorem circleBlendStep_other (c : RGBA) (cx cy radius W H : Int) (im : Image) (d : Int × Int)
    (x y : Int) (hne : ¬(cx + d.1 = x ∧ cy + d.2 = y)) :
    circleBlendStep c cx cy radius W H im d x y = im x y := by
  unfold circleBlendStep
  split
  · split
    · simp only [setPix]
      rw [if_neg ?_]
      rintro ⟨hx, hy⟩
      exact hne ⟨hx.symm, hy.symm⟩
    · rfl
  · rfl

theorem foldl_circleBlend_untouched (c : RGBA) (cx cy radius W H : Int) :
    ∀ (L : List (Int × Int)) (img : Image) (x y : Int),
      (∀ d ∈ L, ¬(cx + d.1 = x ∧ cy + d.2 = y)) →
      (L.foldl (circleBlendStep c cx cy radius W H) img) x y = img x y := by
  intro L
  induction L with
  | nil => intro img x y _; rfl
  | cons d rest ih =>
    intro img x y hL
    simp only [List.foldl_cons]
    rw [ih _ x y fun e he => hL e (List.mem_cons_of_mem d he)]
    exact circleBlendStep_other c cx cy radius W H img d x y (hL d (List.mem_cons_self d rest))

theorem foldl_circleBlend_char (c : RGBA) (cx cy radius W H : Int) :
    ∀ (L : List (Int × Int)) (img : Image) (x y : Int), L.Nodup →
      (L.foldl (circleBlendStep c cx cy radius W H) img) x y =
      if (x - cx, y - cy) ∈ L ∧ (x - cx) * (x - cx) + (y - cy) * (y - cy) ≤ radius * radius ∧
          0 ≤ x ∧ x < W ∧ 0 ≤ y ∧ y < H then blendColors (img x y) c else img x y := by
  intro L
  induction L with
  | nil => intro img x y _; simp
  | cons d rest ih =>
    intro img x y hnd
    rcases List.nodup_cons.1 hnd with ⟨hdnr, hrest⟩
    simp only [List.foldl_cons]
    rw [ih _ x y hrest]
    by_cases hdxy : d = (x - cx, y - cy)
    · have hnotrest : (x - cx, y - cy) ∉ rest := hdxy ▸ hdnr
      rw [if_neg fun hc => hnotrest hc.1]
      have hd1 : d.1 = x - cx := by rw [hdxy]
      have hd2 : d.2 = y - cy := by rw [hdxy]
      have hx : cx + d.1 = x := by omega
      have hy : cy + d.2 = y := by omega
      have hmem : (x - cx, y - cy) ∈ d :: rest := by
        rw [hdxy] at *
        exact List.mem_cons_self _ _
      unfold circleBlendStep
      rw [hx, hy, hd1, hd2]
      by_cases hg : (x - cx) * (x - cx) + (y - cy) * (y - cy) ≤ radius * radius
      · by_cases hb : 0 ≤ x ∧ x < W ∧ 0 ≤ y ∧ y < H
        · rw [if_pos hg, if_pos hb, if_pos ⟨hmem, hg, hb⟩]
          simp [setPix]
        · rw [if_pos hg, if_neg hb, if_neg fun hc => hb hc.2.2]
      · rw [if_neg hg, if_neg fun hc => hg hc.2.1]
    · have hne : ¬(cx + d.1 = x ∧ cy + d.2 = y) := by
        rintro ⟨h1, h2⟩
        refine hdxy (Prod.ext ?_ ?_) <;> simp <;> omega
      rw [circleBlendStep_other c cx cy radius W H img d x y hne]
      refine if_congr ?_ rfl rfl
      constructor
      · rintro ⟨hm, hc⟩
        exact ⟨List.mem_cons_of_mem d hm, hc⟩
      · rintro ⟨hm, hc⟩
        rcases List.mem_cons.1 hm with hEq | hm2
        · exact absurd hEq.symm hdxy
        · exact ⟨hm2, hc⟩

/-- Pixel semantics of `drawFilledCircleBlended`: a covered, in-bounds pixel
becomes the source-over blend of the existing pixel with `c`; all other
pixels are untouched.  Each covered pixel is blended exactly once per
call. -/
theorem drawFilledCircleBlended_pix (img : Image) (cx cy radius : Int) (c : RGBA)
    (W H x y : Int) :
    drawFilledCircleBlended img cx cy radius c W H x y =
      if 0 < radius ∧ (x - cx) * (x - cx) + (y - cy) * (y - cy) ≤ radius * radius ∧
          0 ≤ x ∧ x < W ∧ 0 ≤ y ∧ y < H then blendColors (img x y) c else img x y := by
  unfold drawFilledCircleBlended
  split
  · rw [if_neg]
    rintro ⟨h1, -⟩
    omega
  · rename_i hrne
    rw [foldl_circleBlend_char c cx cy radius W H _ img x y (circleOffsets_nodup radius)]
    refine if_congr ?_ rfl rfl
    constructor
    · rintro ⟨-, hc⟩
      exact ⟨by omega, hc⟩
    · rintro ⟨hrpos, hg, hb⟩
      refine ⟨?_, hg, hb⟩
      rw [mem_circleOffsets]
      have h1 := sq_le_bounds hrpos (by nlinarith : (x - cx) * (x - cx) ≤ radius * radius)
      have h2 := sq_le_bounds hrpos (by nlinarith : (y - cy) * (y - cy) ≤ radius * radius)
      exact ⟨h1, h2⟩

/-! Claim theorems. -/

/-- C1 counterexample: the claim states that for every fineliner sample the
render width equals the nominal brush size times 1.8 independently of the
sample's pressure; at brush size 2 and pressure 0 the Pen Model returns
1.8, not 2 × 1.8 = 3.6, so the claim is false. -/
theorem fineliner_constant_width_cex :
    GetStrokeWidth opsId (NewPenRenderer BrushType.Fineliner 0 2) 0 0 0 0 ≠
      2 * finelinerWidthMultiplier := by
  decide

/-- C1 (amended): for every fineliner stroke and sample, the Pen Model's
instantaneous render width equals the nominal brush size times 1.8 times
`(0.5 + 0.5 × pressure)` — independent of the sample's speed, direction and
device width, but scaled by its pressure (the fineliner takes
`GetStrokeWidth`'s default pressure-modulated branch). -/
theorem fineliner_width_formula (ops : FloatOps) (colorID : Nat)
    (b speed direction width pressure : ℚ) :
    GetStrokeWidth ops (NewPenRenderer BrushType.Fineliner colorID b)
        speed direction width pressure =
      b * finelinerWidthMultiplier * (5 / 10 + pressure * (5 / 10)) := by
  simp [GetStrokeWidth, NewPenRenderer]

/-- C2 counterexample: the claim states that in the second draw pass a
sampled disc with per-sample opacity strictly below full is source-over
blended onto the canvas; drawing a black half-opacity disc onto a white
canvas yields the raw disc color (0,0,0,127), not the blend
(128,128,128,255), so the claim is false. -/
theorem disc_blend_claim_cex :
    (1 / 2 : ℚ) < 1 ∧
    drawVariableWidthLineWithColor opsId (createEmptyImage 3 3) 1 1 1 1 1 1
        ⟨0, 0, 0⟩ ⟨0, 0, 0⟩ (1 / 2) (1 / 2) 3 3 1 1 ≠
      blendColors (createEmptyImage 3 3 1 1) ⟨0, 0, 0, toU8 (255 * (1 / 2))⟩ := by
  constructor
  · decide
  · decide

/-- C2 (amended): in the second draw pass every sampled disc is written by
`drawFilledCircle`, which overwrites each covered in-bounds pixel with the
disc color (alpha stored verbatim) regardless of the existing canvas
content and of the per-sample opacity — no source-over blending happens.
Stated for the degenerate zero-length segment, whose single sampled disc is
the first disc the pass draws. -/
theorem disc_draw_overwrites (ops : FloatOps) (img : Image) (x1 y1 : Int)
    (width1 width2 : Int) (color1 color2 : RGB) (opacity1 opacity2 : ℚ) (W H x y : Int)
    (hrad : 0 < width1)
    (hcov : (x - x1) * (x - x1) + (y - y1) * (y - y1) ≤ width1 * width1)
    (hb : 0 ≤ x ∧ x < W ∧ 0 ≤ y ∧ y < H) :
    drawVariableWidthLineWithColor ops img x1 y1 width1 x1 y1 width2 color1 color2
        opacity1 opacity2 W H x y =
      ⟨color1.r, color1.g, color1.b, toU8 (255 * opacity1)⟩ := by
  unfold drawVariableWidthLineWithColor
  simp only [sub_self, Int.cast_zero, mul_zero, add_zero, ops.sqrt_zero, if_pos]
  rw [drawFilledCircle_pix, if_pos ⟨hrad, hcov, hb⟩]

/-- C2 witness. -/
theorem disc_draw_overwrites_witness :
    (0 : Int) < 1 ∧
    drawVariableWidthLineWithColor opsId newImage 1 1 1 1 1 1 ⟨0, 0, 0⟩ ⟨0, 0, 0⟩
        (1 / 2) (1 / 2) 3 3 1 1 = ⟨0, 0, 0, toU8 (255 * (1 / 2))⟩ :=
  ⟨by decide,
    disc_draw_overwrites opsId newImage 1 1 1 1 ⟨0, 0, 0⟩ ⟨0, 0, 0⟩ (1 / 2) (1 / 2) 3 3 1 1
      (by decide) (by decide) (by decide)⟩

theorem intRange_self (a : Int) : intRange a a = [a] := by
  unfold intRange
  have h : (a + 1 - a).toNat = 1 := by omega
  rw [h]
  simp [List.range_succ]

theorem intRange_zero_up (k : Nat) : intRange 0 ((k : Int) - 1) =
    (List.range k).map fun (i : Nat) => (i : Int) := by
  unfold intRange
  have h : ((k : Int) - 1 + 1 - 0).toNat = k := by omega
  rw [h]
  simp

/-- C9: page selection.  An explicit 1-based page `n` (any `n ≥ 1`) always
selects exactly index `n - 1`, which `getJson` rejects as out of range
exactly when `n` exceeds the page count; the last-opened sentinel
(`cfg.Page = 0`) selects the stored last-opened index, which resolves to 0
when no page id matches the stored last-opened id; a negative `cfg.Page`
selects every index `0 .. pageCount-1` in document order. -/
theorem page_selection_spec (pageCount : Nat) (n : Int) {α : Type} [DecidableEq α]
    (ids : List α) (lastID : α) :
    (1 ≤ n → (pageCount : Int) < n →
      hwrPageRange n pageCount (lastOpenedIndex ids lastID) = [n - 1] ∧
      getJsonPageCheck (n - 1) pageCount = true) ∧
    (1 ≤ n → n ≤ (pageCount : Int) →
      hwrPageRange n pageCount (lastOpenedIndex ids lastID) = [n - 1] ∧
      getJsonPageCheck (n - 1) pageCount = false) ∧
    (hwrPageRange 0 pageCount (lastOpenedIndex ids lastID) =
        [(lastOpenedIndex ids lastID : Int)] ∧
      (lastID ∉ ids → lastOpenedIndex ids lastID = 0)) ∧
    (n < 0 → hwrPageRange n pageCount (lastOpenedIndex ids lastID) =
      (List.range pageCount).map fun (i : Nat) => (i : Int)) := by
  refine ⟨?_, ?_, ⟨?_, ?_⟩, ?_⟩
  · intro h1 h2
    constructor
    · unfold hwrPageRange
      rw [if_neg (by omega), if_neg (by omega)]
      exact intRange_self (n - 1)
    · simp only [getJsonPageCheck, Bool.or_eq_true, decide_eq_true_eq]
      omega
  · intro h1 h2
    constructor
    · unfold hwrPageRange
      rw [if_neg (by omega), if_neg (by omega)]
      exact intRange_self (n - 1)
    · simp only [getJsonPageCheck, Bool.or_eq_false_iff, decide_eq_false_iff_not]
      omega
  · unfold hwrPageRange
    rw [if_pos rfl]
    exact intRange_self _
  · intro hnot
    unfold lastOpenedIndex
    rw [List.findIdx?_eq_none_iff.2 ?_]
    intro a ha
    simp only [decide_eq_false_iff_not]
    intro hEq
    exact hnot (hEq ▸ ha)
  · intro hneg
    unfold hwrPageRange
    rw [if_neg (by omega), if_pos hneg]
    exact intRange_zero_up pageCount

/-- C9 witness. -/
theorem page_selection_spec_witness :
    (hwrPageRange 6 5 (lastOpenedIndex ([] : List Nat) 0) = [5] ∧
      getJsonPageCheck 5 5 = true) ∧
    (hwrPageRange 3 5 (lastOpenedIndex ([] : List Nat) 0) = [2] ∧
      getJsonPageCheck 2 5 = false) ∧
    lastOpenedIndex [7, 8] (9 : Nat) = 0 ∧
    hwrPageRange (-1) 5 (lastOpenedIndex ([] : List Nat) 0) = [0, 1, 2, 3, 4] := by
  refine ⟨(page_selection_spec 5 6 [] 0).1 (by decide) (by decide),
    (page_selection_spec 5 3 [] 0).2.1 (by decide) (by decide),
    (page_selection_spec 5 0 [7, 8] 9).2.2.1.2 (by decide), ?_⟩
  have h := (page_selection_spec 5 (-1) ([] : List Nat) 0).2.2.2 (by decide)
  rw [h]
  decide

/-- C10: an out-of-range page index, and a page whose decoded stroke data
is absent, both make the page-rendering entry point return success with no
image produced — a silent no-op, not a reported failure. -/
theorem invalid_page_silent (ops : FloatOps) (pages : List (Option PageData))
    (n : Int) (config : VisualizationConfig) :
    ((n < 0 ∨ n ≥ (pages.length : Int)) →
      VisualizePageWithConfig ops pages n config = .ok none) ∧
    (0 ≤ n → n < (pages.length : Int) → pages.getD n.toNat none = none →
      VisualizePageWithConfig ops pages n config = .ok none) := by
  constructor
  · intro h
    unfold VisualizePageWithConfig
    rw [if_pos h]
  · intro h0 h1 h2
    unfold VisualizePageWithConfig
    rw [if_neg (by omega), h2]

/-- C10 witness. -/
theorem invalid_page_silent_witness :
    VisualizePageWithConfig opsId [some ⟨[]⟩] 5 DefaultVisualizationConfig = .ok none ∧
    VisualizePageWithConfig opsId [none] 0 DefaultVisualizationConfig = .ok none :=
  ⟨(invalid_page_silent opsId [some ⟨[]⟩] 5 DefaultVisualizationConfig).1 (by norm_num),
   (invalid_page_silent opsId [none] 0 DefaultVisualizationConfig).2 (by norm_num) (by norm_num)
     (by rfl)⟩

/-- C3: the scan loop is a total function (`scanLines` and `parseLayersAux`
are defined by well-founded recursion on the remaining window, so decode
terminates on every byte buffer); whenever the candidate at `pos` is
rejected by a plausibility check the loop retries at exactly `pos + 1`, and
an accepted candidate always moves the cursor strictly forward. -/
theorem reject_advances_one (data : List Nat) (pe pos : Nat) (hloop : pos < pe - 50) :
    (scanStep data pe pos = ScanOutcome.reject →
      scanLines data pe pos = scanLines data pe (pos + 1)) ∧
    ∀ l next, scanStep data pe pos = ScanOutcome.accept l next → pos < next := by
  constructor
  · intro hr
    conv_lhs => rw [scanLines]
    rw [dif_pos hloop]
    split
    · rename_i n hs
      rw [hs] at hr
      cases hr
    · rfl
    · rename_i l next hs
      rw [hs] at hr
      cases hr
  · exact fun l next h => scanStep_accept_lt data pe pos l next h

/-- C3 witness: a candidate whose brush type reads 51 is rejected, and the
scan position advances from 0 to exactly 1. -/
theorem reject_advances_one_witness :
    scanStep [51, 0, 0, 0] 100 0 = ScanOutcome.reject ∧
    scanLines [51, 0, 0, 0] 100 0 = scanLines [51, 0, 0, 0] 100 1 :=
  ⟨by decide, (reject_advances_one [51, 0, 0, 0] 100 0 (by decide)).1 (by decide)⟩

/-- Whether a header candidate passed all four plausibility checks. -/
def HeaderResult.isAccept : HeaderResult → Bool
  | .accept .. => true
  | _ => false

/-- Whether a decoded float32 is a finite value inside `[lo, hi]`. -/
def F32.within (f : F32) (lo hi : ℚ) : Bool :=
  match f with
  | .fin q => decide (lo ≤ q ∧ q ≤ hi)
  | _ => false

/-- The acceptance condition exactly as the claim words it: brush-type
≤ 50, brush-size within the interval [0, 100], point-count in (0, 50000],
and the point data fitting in the remaining window. -/
def specHeaderAccept (data : List Nat) (pe pos : Nat) : Prop :=
  le32 data pos ≤ 50 ∧
  (f32FromBits (le32 data (pos + 12))).within 0 100 = true ∧
  0 < le32 data (pos + 20) ∧ le32 data (pos + 20) ≤ 50000 ∧
  pos + 24 + le32 data (pos + 20) * 24 ≤ pe

instance (data : List Nat) (pe pos : Nat) : Decidable (specHeaderAccept data pe pos) := by
  unfold specHeaderAccept
  infer_instance

/-- A 24-byte candidate header whose brush-size field holds the NaN bit
pattern 0x7FC00000, followed by one all-zero point record. -/
def c6data : List Nat :=
  [1, 0, 0, 0, 0, 0, 0, 0, 0, 0, 0, 0, 0, 0, 192, 127, 0, 0, 0, 0, 1, 0, 0, 0] ++
    List.replicate 24 0

/-- C6 counterexample: the decoder accepts a candidate whose brush size is
NaN — NaN fails `brushSize < 0` and `brushSize > 100` under IEEE
comparison semantics — although NaN is not within [0, 100], so the claimed
"accepted if and only if … brush-size within [0, 100]" is false. -/
theorem header_accept_nan_cex :
    (readHeader c6data 100 0).isAccept = true ∧ ¬specHeaderAccept c6data 100 0 := by
  constructor
  · decide
  · decide

/-- C6 (amended): within the scan loop's window, a candidate header is
accepted if and only if: brush-type ≤ 50; the brush-size float is not less
than 0 and not greater than 100 under IEEE comparisons (so a NaN brush size
also passes); point-count in (0, 50000]; and point-count × 24 bytes fit in
the remaining window.  Any failed check rejects the candidate (and C3 shows
a rejected candidate retries at the next byte). -/
theorem header_accept_iff (data : List Nat) (pe pos : Nat) (hloop : pos < pe - 50) :
    (readHeader data pe pos).isAccept = true ↔
      (le32 data pos ≤ 50 ∧
       (f32FromBits (le32 data (pos + 12))).ltB 0 = false ∧
       (f32FromBits (le32 data (pos + 12))).gtB 100 = false ∧
       0 < le32 data (pos + 20) ∧ le32 data (pos + 20) ≤ 50000 ∧
       pos + 24 + le32 data (pos + 20) * 24 ≤ pe) := by
  unfold readHeader
  dsimp only
  rw [if_neg (by omega : ¬pos + 4 > pe), if_neg (by omega : ¬pos + 8 > pe),
    if_neg (by omega : ¬pos + 12 > pe), if_neg (by omega : ¬pos + 16 > pe),
    if_neg (by omega : ¬pos + 20 > pe), if_neg (by omega : ¬pos + 24 > pe)]
  by_cases h1 : le32 data pos > 50
  · rw [if_pos h1]
    constructor
    · intro h
      simp [HeaderResult.isAccept] at h
    · rintro ⟨hA, -⟩
      exact absurd hA (by omega)
  · rw [if_neg h1]
    by_cases h2 : ((f32FromBits (le32 data (pos + 12))).ltB 0 ||
        (f32FromBits (le32 data (pos + 12))).gtB 100) = true
    · rw [if_pos h2]
      constructor
      · intro h
        simp [HeaderResult.isAccept] at h
      · rintro ⟨-, hB, hC, -⟩
        rw [hB, hC] at h2
        cases h2
    · rw [if_neg h2]
      simp only [Bool.or_eq_true, not_or, Bool.not_eq_true] at h2
      by_cases h3 : (le32 data (pos + 20) = 0 ∨ le32 data (pos + 20) > 50000)
      · rw [if_pos (by simpa using h3)]
        constructor
        · intro h
          simp [HeaderResult.isAccept] at h
        · rintro ⟨-, -, -, hD, hE, -⟩
          exfalso
          omega
      · rw [if_neg (by simpa using h3)]
        by_cases h4 : pos + 24 + le32 data (pos + 20) * 24 > pe
        · rw [if_pos h4]
          constructor
          · intro h
            simp [HeaderResult.isAccept] at h
          · rintro ⟨-, -, -, -, -, hF⟩
            exfalso
            omega
        · rw [if_neg h4]
          simp only [HeaderResult.isAccept, true_iff]
          exact ⟨by omega, h2.1, h2.2, by omega, by omega, by omega⟩

/-- C6 witness: a fully valid candidate header (brush type 1, brush size
1.0, one point that fits) is accepted. -/
theorem header_accept_iff_witness :
    (readHeader
      ([1, 0, 0, 0, 0, 0, 0, 0, 0, 0, 0, 0, 0, 0, 128, 63, 0, 0, 0, 0, 1, 0, 0, 0] ++
        List.replicate 24 0) 100 0).isAccept = true :=
  (header_accept_iff
    ([1, 0, 0, 0, 0, 0, 0, 0, 0, 0, 0, 0, 0, 0, 128, 63, 0, 0, 0, 0, 1, 0, 0, 0] ++
      List.replicate 24 0) 100 0 (by decide)).2 (by decide)

theorem readPoints_keep (data : List Nat) (pe : Nat) :
    ∀ (n pos : Nat), ∀ p ∈ (readPoints data pos pe n).1, pointKeep p = true := by
  intro n
  induction n with
  | zero => intro pos p hp; simp [readPoints] at hp
  | succ n ih =>
    intro pos p hp
    simp only [readPoints] at hp
    split at hp
    · simp at hp
    · split at hp
      · rename_i hk
        rcases List.mem_cons.1 hp with rfl | hmem
        · exact hk
        · exact ih (pos + 24) p hmem
      · exact ih (pos + 24) p hp

theorem scanStep_accept_points (data : List Nat) (pe pos : Nat) (l : Line) (next : Nat)
    (h : scanStep data pe pos = .accept l next) :
    l.points ≠ [] ∧ ∀ p ∈ l.points, pointKeep p = true := by
  unfold scanStep at h
  rcases hh : readHeader data pe pos with n | _ | ⟨bt, bc, pad, bs, unk, np⟩ <;> rw [hh] at h
  · simp at h
  · simp at h
  · dsimp only at h
    split at h
    · rename_i hl
      cases h
      constructor
      · intro hnil
        have hnil2 : (readPoints data (pos + 24) pe np).1 = [] := hnil
        rw [hnil2] at hl
        simp at hl
      · exact fun p hp => readPoints_keep data pe np (pos + 24) p hp
    · simp at h

theorem scanLines_lines_aux (data : List Nat) (pe : Nat) :
    ∀ (fuel pos : Nat), pe - pos ≤ fuel → ∀ l ∈ (scanLines data pe pos).1,
      l.points ≠ [] ∧ ∀ p ∈ l.points, pointKeep p = true := by
  intro fuel
  induction fuel with
  | zero =>
    intro pos hf l hl
    rw [scanLines, dif_neg (by omega)] at hl
    simp at hl
  | succ fuel ih =>
    intro pos hf l hl
    by_cases hc : pos < pe - 50
    · rw [scanLines, dif_pos hc] at hl
      split at hl
      · simp at hl
      · exact ih (pos + 1) (by omega) l hl
      · rename_i l0 next hs
        rcases List.mem_cons.1 hl with rfl | hmem
        · exact scanStep_accept_points data pe pos l next hs
        · have hlt := scanStep_accept_lt data pe pos l0 next hs
          exact ih next (by omega) l hmem
    · rw [scanLines, dif_neg hc] at hl
      simp at hl

theorem scanLines_lines (data : List Nat) (pe pos : Nat) :
    ∀ l ∈ (scanLines data pe pos).1,
      l.points ≠ [] ∧ ∀ p ∈ l.points, pointKeep p = true :=
  fun l hl => scanLines_lines_aux data pe pe pos (by omega) l hl

theorem parseLayersAux_lines (data : List Nat) (numLayers : Nat) :
    ∀ (fuel layerIdx pos : Nat), numLayers - layerIdx ≤ fuel →
      ∀ ls ∈ parseLayersAux data numLayers layerIdx pos, ∀ l ∈ ls,
        l.points ≠ [] ∧ ∀ p ∈ l.points, pointKeep p = true := by
  intro fuel
  induction fuel with
  | zero =>
    intro k pos hf ls hls
    rw [parseLayersAux, dif_neg (by omega)] at hls
    simp at hls
  | succ fuel ih =>
    intro k pos hf ls hls
    by_cases hc : k < numLayers
    · rw [parseLayersAux, dif_pos hc] at hls
      rcases List.mem_cons.1 hls with rfl | hmem
      · exact fun l hl => scanLines_lines data _ pos l hl
      · exact ih (k + 1) _ (by omega) ls hmem
    · rw [parseLayersAux, dif_neg hc] at hls
      simp at hls

theorem parseRm_lines (data : List Nat) (doc : Rm) (h : parseRmVersion6 data = .ok doc) :
    ∀ layer ∈ doc.layers, ∀ l ∈ layer.lines,
      l.points ≠ [] ∧ ∀ p ∈ l.points, pointKeep p = true := by
  unfold parseRmVersion6 at h
  split at h
  · simp at h
  · split at h
    · simp at h
    · split at h
      · simp at h
      · split at h
        · simp at h
        · split at h
          · simp at h
          · split at h
            · simp at h
            · split at h
              · simp at h
              · injection h with h
                subst h
                intro layer hlayer l hl
                rcases List.mem_map.1 hlayer with ⟨ls, hls, rfl⟩
                exact parseLayersAux_lines data (le32 data 53) (le32 data 53) 0 80 (by omega) ls hls l hl

/-- The claim's validity predicate on a retained sample point: all six
fields finite, with x, y within [-1000, 20000]. -/
def PointValid (p : Point) : Prop :=
  (∃ qx, p.x = F32.fin qx ∧ -1000 ≤ qx ∧ qx ≤ 20000) ∧
  (∃ qy, p.y = F32.fin qy ∧ -1000 ≤ qy ∧ qy ≤ 20000) ∧
  (∃ qs, p.speed = F32.fin qs) ∧ (∃ qd, p.direction = F32.fin qd) ∧
  (∃ qw, p.width = F32.fin qw) ∧ (∃ qp, p.pressure = F32.fin qp)

theorem finite_of_flags (f : F32) (h1 : f.isNaNB = false) (h2 : f.isInfB = false) :
    ∃ q, f = F32.fin q := by
  cases f
  · simp [F32.isNaNB] at h1
  · simp [F32.isInfB] at h2
  · exact ⟨_, rfl⟩

theorem range_of_flags (f : F32) (h1 : f.ltB (-1000) = false) (h2 : f.gtB 20000 = false)
    (hfin : ∃ q, f = F32.fin q) :
    ∃ q, f = F32.fin q ∧ -1000 ≤ q ∧ q ≤ 20000 := by
  rcases hfin with ⟨q, rfl⟩
  simp only [F32.ltB, F32.gtB, decide_eq_false_iff_not] at h1 h2
  exact ⟨q, rfl, le_of_not_lt h1, le_of_not_lt h2⟩

theorem pointKeep_valid (p : Point) (h : pointKeep p = true) : PointValid p := by
  simp only [pointKeep, Bool.and_eq_true] at h
  obtain ⟨hf, hr⟩ := h
  simp only [pointFinite, Bool.not_eq_true', Bool.or_eq_false_iff] at hf
  simp only [pointInRange, Bool.not_eq_true', Bool.or_eq_false_iff] at hr
  obtain ⟨⟨⟨⟨⟨⟨⟨⟨⟨⟨⟨hxn, hxi⟩, hyn⟩, hyi⟩, hsn⟩, hsi⟩, hdn⟩, hdi⟩, hwn⟩, hwi⟩, hpn⟩, hpi⟩ := hf
  obtain ⟨⟨⟨hxl, hxg⟩, hyl⟩, hyg⟩ := hr
  exact ⟨range_of_flags _ hxl hxg (finite_of_flags _ hxn hxi),
    range_of_flags _ hyl hyg (finite_of_flags _ hyn hyi),
    finite_of_flags _ hsn hsi, finite_of_flags _ hdn hdi,
    finite_of_flags _ hwn hwi, finite_of_flags _ hpn hpi⟩

theorem readPoints_filter (data : List Nat) (pe : Nat) :
    ∀ (n pos : Nat), pos + 24 * n ≤ pe →
      (readPoints data pos pe n).1 =
        ((List.range n).map fun i => readPoint data (pos + 24 * i)).filter pointKeep := by
  intro n
  induction n with
  | zero => intro pos _; simp [readPoints]
  | succ n ih =>
    intro pos hfit
    simp only [readPoints]
    rw [if_neg (by omega)]
    rw [List.range_succ_eq_map]
    simp only [List.map_cons, List.map_map, List.filter_cons]
    have harg : ∀ i : Nat, pos + 24 * (i + 1) = pos + 24 + 24 * i := by
      intro i
      ring
    have hcomp : ((fun i => readPoint data (pos + 24 * i)) ∘ Nat.succ) =
        fun i => readPoint data (pos + 24 + 24 * i) := by
      funext i
      simp [Function.comp, Nat.succ_eq_add_one, harg i]
    rw [hcomp, ← ih (pos + 24) (by omega)]
    simp only [Nat.mul_zero, Nat.add_zero]
    split
    · rfl
    · rfl

/-- C4: every retained sample point of every stroke of a successfully
decoded document is valid (all six fields finite, x and y within
[-1000, 20000]); moreover the point loop retains exactly the valid points
among those read, in order — an invalid point is dropped individually
without discarding the rest of the stroke's points. -/
theorem decoded_points_valid :
    (∀ (data : List Nat) (doc : Rm), parseRmVersion6 data = .ok doc →
      ∀ layer ∈ doc.layers, ∀ line ∈ layer.lines, ∀ p ∈ line.points, PointValid p) ∧
    (∀ (data : List Nat) (pe n pos : Nat), pos + 24 * n ≤ pe →
      (readPoints data pos pe n).1 =
        ((List.range n).map fun i => readPoint data (pos + 24 * i)).filter pointKeep) := by
  constructor
  · intro data doc h layer hlayer line hline p hp
    exact pointKeep_valid p ((parseRm_lines data doc h layer hlayer line hline).2 p hp)
  · intro data pe n pos hfit
    exact readPoints_filter data pe n pos hfit

/-- C5: every stroke of a successfully decoded document has at least one
sample point; a candidate whose points all failed validation is turned
into a rejection (a false positive, resynchronized past — see C3), never
emitted as an empty stroke. -/
theorem decoded_strokes_nonempty :
    (∀ (data : List Nat) (doc : Rm), parseRmVersion6 data = .ok doc →
      ∀ layer ∈ doc.layers, ∀ line ∈ layer.lines, line.points ≠ []) ∧
    (∀ (data : List Nat) (pe pos : Nat) (bt bc pad : Nat) (bs unk : F32) (np : Nat),
      readHeader data pe pos = .accept bt bc pad bs unk np →
      (readPoints data (pos + 24) pe np).1 = [] →
      scanStep data pe pos = ScanOutcome.reject) := by
  constructor
  · intro data doc h layer hlayer line hline
    exact (parseRm_lines data doc h layer hlayer line hline).1
  · intro data pe pos bt bc pad bs unk np hh hempty
    unfold scanStep
    rw [hh]
    dsimp only
    rw [if_neg ?_]
    rw [hempty]
    simp

/-- A minimal well-formed version-6 page buffer: the "version=6" marker in
the 43-byte header, one layer, and one stroke (brush type 1, brush size
1.0, a single point at (100, 100)). -/
def demoData : List Nat :=
  [118, 101, 114, 115, 105, 111, 110, 61, 54] ++ List.replicate 34 0 ++
  List.replicate 10 0 ++ [1, 0, 0, 0] ++ List.replicate 23 0 ++
  [1, 0, 0, 0] ++ [0, 0, 0, 0] ++ [0, 0, 0, 0] ++ [0, 0, 128, 63] ++ [0, 0, 0, 0] ++
  [1, 0, 0, 0] ++ [0, 0, 200, 66] ++ [0, 0, 200, 66] ++ List.replicate 16 0 ++
  List.replicate 3 0

def demoPoint : Point :=
  ⟨F32.fin 100, F32.fin 100, F32.fin 0, F32.fin 0, F32.fin 0, F32.fin 0⟩

def demoLine : Line := ⟨1, 0, 0, F32.fin 1, F32.fin 0, [demoPoint]⟩

def demoDoc : Rm := ⟨[⟨[demoLine]⟩]⟩

theorem demo_scanStep : scanStep demoData 131 80 = ScanOutcome.accept demoLine 128 := by
  decide

theorem demo_scanLines_end : scanLines demoData 131 128 = ([], 128) := by
  rw [scanLines, dif_neg (by decide)]

theorem demo_scanLines : scanLines demoData 131 80 = ([demoLine], 128) := by
  rw [scanLines, dif_pos (by decide)]
  split
  · rename_i n hs
    have hd := demo_scanStep
    rw [hs] at hd
    cases hd
  · rename_i hs
    have hd := demo_scanStep
    rw [hs] at hd
    cases hd
  · rename_i l next hs
    have hd := demo_scanStep
    rw [hs] at hd
    injection hd with h1 h2
    subst h1
    subst h2
    rw [demo_scanLines_end]

theorem demo_layers : parseLayersAux demoData 1 0 80 = [[demoLine]] := by
  rw [parseLayersAux, dif_pos (by decide)]
  have hfind : findLayerMarker demoData 80 = none := by decide
  rw [hfind]
  dsimp only
  rw [if_neg (by decide), if_neg (by decide)]
  rw [show demoData.length = 131 from by decide, demo_scanLines]
  rw [parseLayersAux, dif_neg (by decide)]

theorem demo_parse : parseRmVersion6 demoData = Except.ok demoDoc := by
  unfold parseRmVersion6
  rw [if_neg (by decide), if_neg (by decide), if_neg (by decide), if_neg (by decide),
    if_neg (by decide)]
  dsimp only
  rw [if_neg (by decide), if_neg (by decide)]
  rw [show le32 demoData 53 = 1 from by decide, demo_layers]
  rfl

/-- C4 witness: decoding `demoData` succeeds, its one retained point is
valid, and the point loop on that buffer retains exactly the valid points
among those read. -/
theorem decoded_points_valid_witness :
    PointValid demoPoint ∧
    (readPoints demoData 104 131 1).1 =
      ((List.range 1).map fun i => readPoint demoData (104 + 24 * i)).filter pointKeep :=
  ⟨decoded_points_valid.1 demoData demoDoc demo_parse ⟨[demoLine]⟩ (by decide) demoLine
      (by decide) demoPoint (by decide),
   decoded_points_valid.2 demoData 131 1 104 (by decide)⟩

/-- A candidate whose header passes every check but whose single point has
a NaN x field, so every point is dropped. -/
def c5data : List Nat :=
  [1, 0, 0, 0, 0, 0, 0, 0, 0, 0, 0, 0, 0, 0, 128, 63, 0, 0, 0, 0, 1, 0, 0, 0,
   0, 0, 192, 127] ++ List.replicate 20 0

/-- C5 witness: the demo document's stroke is non-empty, and a candidate
whose points all fail validation yields a rejection, not an empty stroke. -/
theorem decoded_strokes_nonempty_witness :
    demoLine.points ≠ [] ∧ scanStep c5data 100 0 = ScanOutcome.reject :=
  ⟨decoded_strokes_nonempty.1 demoData demoDoc demo_parse ⟨[demoLine]⟩ (by decide) demoLine
      (by decide),
   decoded_strokes_nonempty.2 c5data 100 0 1 0 0 (F32.fin 1) (F32.fin 0) 1
      (by decide) (by decide)⟩

theorem bbox_lines_skip (lines : List VLine) :
    ∀ acc, (∀ line ∈ lines, line.brushType = BrushType.EraseArea ∨ line.points.length < 2) →
      lines.foldl (fun a2 line =>
        if line.brushType = BrushType.EraseArea ∨ line.points.length < 2 then a2
        else line.points.foldl bboxAccPoint a2) acc = acc := by
  induction lines with
  | nil => intro acc _; rfl
  | cons l rest ih =>
    intro acc hq
    simp only [List.foldl_cons]
    rw [if_pos (hq l (List.mem_cons_self l rest))]
    exact ih acc fun e he => hq e (List.mem_cons_of_mem l he)

theorem bbox_layers_skip (layers : List VLayer) :
    ∀ acc, (∀ layer ∈ layers, ∀ line ∈ layer.lines,
        line.brushType = BrushType.EraseArea ∨ line.points.length < 2) →
      layers.foldl (fun a layer =>
        layer.lines.foldl (fun a2 line =>
          if line.brushType = BrushType.EraseArea ∨ line.points.length < 2 then a2
          else line.points.foldl bboxAccPoint a2) a) acc = acc := by
  induction layers with
  | nil => intro acc _; rfl
  | cons l rest ih =>
    intro acc hq
    simp only [List.foldl_cons]
    rw [bbox_lines_skip l.lines acc (hq l (List.mem_cons_self l rest))]
    exact ih acc fun e he => hq e (List.mem_cons_of_mem l he)

/-- When no stroke qualifies (every stroke is an erase-area stroke or has
fewer than 2 points), the bounding box scan finds no points. -/
theorem calculateBoundingBox_none (pd : PageData) (config : VisualizationConfig)
    (hq : ∀ layer ∈ pd.layers, ∀ line ∈ layer.lines,
        line.brushType = BrushType.EraseArea ∨ line.points.length < 2) :
    calculateBoundingBox pd config = none := by
  unfold calculateBoundingBox
  rw [bbox_layers_skip pd.layers none hq]

/-- C7: rendering a page that contains no qualifying stroke — no strokes at
all, or only erase-area strokes and strokes with fewer than 2 points —
returns successfully with a canvas of exactly `OutputWidth ×
minImageHeight` whose every pixel is white. -/
theorem blank_page_renders_white (ops : FloatOps) (pages : List (Option PageData))
    (n : Int) (config : VisualizationConfig) (pd : PageData)
    (h0 : 0 ≤ n) (h1 : n < (pages.length : Int)) (h2 : pages.getD n.toNat none = some pd)
    (hq : ∀ layer ∈ pd.layers, ∀ line ∈ layer.lines,
        line.brushType = BrushType.EraseArea ∨ line.points.length < 2) :
    VisualizePageWithConfig ops pages n config =
      .ok (some ⟨config.OutputWidth, minImageHeight,
        createEmptyImage config.OutputWidth minImageHeight⟩) ∧
    ∀ x y : Int, 0 ≤ x → x < config.OutputWidth → 0 ≤ y → y < minImageHeight →
      createEmptyImage config.OutputWidth minImageHeight x y = white := by
  constructor
  · unfold VisualizePageWithConfig
    rw [if_neg (by omega), h2]
    dsimp only
    rw [calculateBoundingBox_none pd config hq]
  · intro x y hx1 hx2 hy1 hy2
    unfold createEmptyImage
    rw [fillWhiteBackground_pix, if_pos ⟨hx1, hx2, hy1, hy2⟩]

/-- A page holding one erase-area stroke with two points and one one-point
stroke: nothing qualifies for rendering. -/
def blankPage : PageData :=
  ⟨[⟨[⟨BrushType.EraseArea, 0, 1, [⟨0, 0, 0, 0, 0, 0⟩, ⟨1, 1, 0, 0, 0, 0⟩]⟩,
      ⟨BrushType.Fineliner, 0, 1, [⟨5, 5, 0, 0, 0, 0⟩]⟩]⟩]⟩

/-- C7 witness. -/
theorem blank_page_renders_white_witness :
    VisualizePageWithConfig opsId [some blankPage] 0 DefaultVisualizationConfig =
      .ok (some ⟨DefaultVisualizationConfig.OutputWidth, minImageHeight,
        createEmptyImage DefaultVisualizationConfig.OutputWidth minImageHeight⟩) ∧
    createEmptyImage DefaultVisualizationConfig.OutputWidth minImageHeight 3 7 = white :=
  ⟨(blank_page_renders_white opsId [some blankPage] 0 DefaultVisualizationConfig blankPage
      (by norm_num) (by norm_num) (by rfl) (by decide)).1,
   (blank_page_renders_white opsId [some blankPage] 0 DefaultVisualizationConfig blankPage
      (by norm_num) (by norm_num) (by rfl) (by decide)).2 3 7
      (by norm_num) (by decide) (by norm_num) (by decide)⟩

/-- C8 counterexample: composing the highlighter's blended draw twice over
white with the alpha byte actually used by the code
(`toU8 (255 × 0.45) = 114`) yields pixel value 77 for a black stroke color;
the resulting coverage is (255-77)/255 = 178/255 ≈ 0.698, not the exact
1-(1-0.45)² = 0.6975 the claim states, and the pixel is not the
real-valued over-twice result 255 × 0.3025 = 77.1375 either. -/
theorem highlighter_coverage_cex :
    drawFilledCircleBlended (drawFilledCircleBlended (fillWhiteBackground newImage 3 3) 1 1 1
        ⟨0, 0, 0, toU8 (255 * highlighterOpacity)⟩ 3 3) 1 1 1
        ⟨0, 0, 0, toU8 (255 * highlighterOpacity)⟩ 3 3 1 1 = ⟨77, 77, 77, 255⟩ ∧
    ((255 : ℚ) - 77) / 255 ≠ 1 - (1 - 45 / 100) * (1 - 45 / 100) ∧
    (77 : ℚ) ≠ 255 * (1 - (1 - 45 / 100) * (1 - 45 / 100)) := by
  refine ⟨by decide, by decide, by decide⟩

/-- C8 (amended): a pixel covered by two successive fully overlapping
blended highlighter draws of the same color becomes `blendColors` applied
twice with the same color — the source-over operator with the quantized
alpha byte `toU8 (255 × highlighterOpacity) = 114`; for black over white
this gives pixel 77 (coverage ≈ 0.6943 before truncation), which is
neither the single-pass value 141 nor the additive-0.9 value 25. -/
theorem highlighter_double_blend (img : Image) (cx cy radius : Int) (c : RGBA)
    (W H x y : Int) (hrad : 0 < radius)
    (hcov : (x - cx) * (x - cx) + (y - cy) * (y - cy) ≤ radius * radius)
    (hb : 0 ≤ x ∧ x < W ∧ 0 ≤ y ∧ y < H) :
    drawFilledCircleBlended (drawFilledCircleBlended img cx cy radius c W H)
        cx cy radius c W H x y = blendColors (blendColors (img x y) c) c ∧
    toU8 (255 * highlighterOpacity) = 114 ∧
    blendColors (blendColors white ⟨0, 0, 0, 114⟩) ⟨0, 0, 0, 114⟩ = ⟨77, 77, 77, 255⟩ ∧
    blendColors white ⟨0, 0, 0, 114⟩ = ⟨141, 141, 141, 255⟩ ∧
    (77 : Nat) ≠ 141 ∧ toU8 (255 * (1 - 9 / 10)) = 25 ∧ (77 : Nat) ≠ 25 := by
  refine ⟨?_, by decide, by decide, by decide, by decide, by decide, by decide⟩
  rw [drawFilledCircleBlended_pix, if_pos ⟨hrad, hcov, hb⟩,
    drawFilledCircleBlended_pix, if_pos ⟨hrad, hcov, hb⟩]

/-- C8 witness. -/
theorem highlighter_double_blend_witness :
    drawFilledCircleBlended (drawFilledCircleBlended (fillWhiteBackground newImage 3 3) 1 1 1
        ⟨0, 0, 0, 114⟩ 3 3) 1 1 1 ⟨0, 0, 0, 114⟩ 3 3 1 1 =
      blendColors (blendColors (fillWhiteBackground newImage 3 3 1 1) ⟨0, 0, 0, 114⟩)
        ⟨0, 0, 0, 114⟩ :=
  (highlighter_double_blend (fillWhiteBackground newImage 3 3) 1 1 1 ⟨0, 0, 0, 114⟩ 3 3 1 1
    (by decide) (by decide) (by decide)).1

end HwrSpec
